/-
Verification of the inference-and-evaluation pipeline of `2023-hello-llm`
against its natural-language specification.

The development shallowly embeds the pandas tables and the pipeline
operations of `lab_7_llm/main.py` and `lab_8_llm/main.py`:

* a pandas `DataFrame` becomes `Table`: a list of column names together
  with rows carrying an index label and a list of cells, where a cell is
  `Option String` (`none` models `NaN`);
* fallible pandas operations (`drop` on a missing column, `min` over an
  empty series, `len` of `NaN`) return `Except String`;
* the tokenizer/model/decode composite of the generation pipeline is an
  abstract per-input function `String → String`, since the HuggingFace
  model produces exactly one decoded sequence per batched input.
-/
import Mathlib

set_option autoImplicit false

namespace HelloLLM

/-- A pandas cell: `none` models `NaN`, `some s` a string value. -/
abbrev Cell := Option String

/-- A pandas `DataFrame`: column names, plus rows as (index label, cells). -/
structure Table where
  cols : List String
  rows : List (Nat × List Cell)
  deriving DecidableEq, Repr

/-- Pandas `DataFrame.rename(columns=...)`: renames column labels, leaving rows alone. -/
def Table.renameCols (t : Table) (f : String → String) : Table :=
  { t with cols := t.cols.map f }

/-- Generic first-occurrence de-duplication by a key, with the keys already
seen accumulated in `seen`.  Models `DataFrame.drop_duplicates()` (which keeps
the first of each group of equal rows). -/
def dedupKeyed {α κ : Type} [DecidableEq κ] (key : α → κ) :
    List α → List κ → List α
  | [], _ => []
  | a :: as, seen =>
    if key a ∈ seen then dedupKeyed key as seen
    else a :: dedupKeyed key as (key a :: seen)

/-- Pandas `DataFrame.drop_duplicates()`: drops rows whose cells equal an earlier
row's cells (index labels are not compared). -/
def Table.dropDuplicates (t : Table) : Table :=
  { t with rows := dedupKeyed Prod.snd t.rows [] }

/-- One cell of `DataFrame.replace('', np.nan)`. -/
def replCell (c : Cell) : Cell :=
  if c = some "" then none else c

/-- Pandas `DataFrame.replace('', np.nan)`: empty strings become missing values. -/
def Table.replaceEmptyNa (t : Table) : Table :=
  { t with rows := t.rows.map (fun r => (r.1, r.2.map replCell)) }

/-- A row with no missing cell. -/
def rowFull (cs : List Cell) : Bool :=
  cs.all (fun c => c.isSome)

/-- Pandas `DataFrame.dropna()`: keeps only the rows with no missing cell. -/
def Table.dropna (t : Table) : Table :=
  { t with rows := t.rows.filter (fun r => rowFull r.2) }

/-- Pandas `DataFrame.reset_index(drop=True)`: renumbers the index `0, 1, 2, …`. -/
def Table.resetIndex (t : Table) : Table :=
  { t with rows := (t.rows.map Prod.snd).enum }

/-- Cells of a row surviving `DataFrame.drop(columns=names)`: keep the cells
whose column label is not being dropped. -/
def filterCells (cols names : List String) (cs : List Cell) : List Cell :=
  ((cols.zip cs).filter (fun p => !(names.contains p.1))).map Prod.snd

/-- Pandas `DataFrame.drop(columns=names)`: raises `KeyError` when one of `names`
is not a column of the frame. -/
def Table.dropCols (t : Table) (names : List String) : Except String Table :=
  if names.all (fun n => t.cols.contains n) then
    Except.ok { cols := t.cols.filter (fun c => !(names.contains c)),
                rows := t.rows.map (fun r => (r.1, filterCells t.cols names r.2)) }
  else
    Except.error "KeyError"

/-- The column rename applied by `lab_7_llm`'s transform:
`{'label': ColumnNames.TARGET.value}` with `TARGET.value = "target"`. -/
def renameLabel (c : String) : String :=
  if c = "label" then "target" else c

/-- Embeds `lab_7_llm.RawDataPreprocessor.transform`: rename `label` to `target`,
drop exact-duplicate rows, replace `''` with `NaN` and drop rows with any
missing value, then re-index from zero. -/
def transform7 (t : Table) : Table :=
  ((((t.renameCols renameLabel).dropDuplicates).replaceEmptyNa).dropna).resetIndex

/-- The column rename applied by `lab_8_llm`'s transform:
`{'best_answer': ColumnNames.TARGET.value}`. -/
def renameBestAnswer (c : String) : String :=
  if c = "best_answer" then "target" else c

/-- Embeds `lab_8_llm.RawDataPreprocessor.transform`: drop five columns of the raw
TruthfulQA frame and rename `best_answer` to `target`.  No de-duplication,
no empty-row removal and no re-indexing is performed. -/
def transform8 (t : Table) : Except String Table :=
  (t.dropCols ["type", "category", "correct_answers", "incorrect_answers", "source"]).map
    (fun t' => t'.renameCols renameBestAnswer)

/-- A cell that the spec counts as missing: `NaN` or the empty string. -/
def isEmptyCellB (c : Cell) : Bool :=
  c == none || c == some ""

/-- A row with at least one missing-or-empty cell. -/
def rowHasEmptyB (r : Nat × List Cell) : Bool :=
  r.2.any isEmptyCellB

/-- Does any row of the table carry a missing-or-empty cell? -/
def tableHasBad (t : Table) : Bool :=
  t.rows.any rowHasEmptyB

/-! ### Dataset analysis (`RawDataPreprocessor.analyze`) -/

/-- The diagnostics report returned by `analyze` (§6 of the spec): the six
fixed keys of the mapping become the six fields. -/
structure AnalyzeReport where
  samples : Nat
  columns : Nat
  duplicates : Nat
  emptyRows : Nat
  minLen : Nat
  maxLen : Nat
  deriving DecidableEq, Repr

/-- Pandas `Series.duplicated()` (`keep='first'`): flags every element equal to an
earlier element of the series (or to a member of `seen`). -/
def duplicatedFlags {α : Type} [DecidableEq α] : List α → List α → List Bool
  | [], _ => []
  | a :: as, seen => decide (a ∈ seen) :: duplicatedFlags as (a :: seen)

/-- Column access `frame[name]`: the column of the given label, `KeyError` if absent.  A
short row simply has `NaN` in the trailing columns. -/
def getColumn (t : Table) (name : String) : Except String (List Cell) :=
  match t.cols.indexOf? name with
  | none => Except.error "KeyError"
  | some i => Except.ok (t.rows.map (fun r => r.2.getD i none))

/-- Extracting the string of every cell of a column; `len(nan)` raises
`TypeError`, so a missing cell is an error. -/
def cellStrings : List Cell → Except String (List String)
  | [] => Except.ok []
  | none :: _ => Except.error "TypeError"
  | some s :: cs => (cellStrings cs).map (fun ss => s :: ss)

/-- Python `len(min(column, key=len))`: the minimal character length of a column of
strings; `min` of an empty sequence raises `ValueError`. -/
def pyMinLen : List String → Except String Nat
  | [] => Except.error "ValueError"
  | s :: ss => Except.ok ((ss.map String.length).foldl Nat.min s.length)

/-- Python `len(max(column, key=len))`: the maximal character length of a column of
strings; `max` of an empty sequence raises `ValueError`. -/
def pyMaxLen : List String → Except String Nat
  | [] => Except.error "ValueError"
  | s :: ss => Except.ok ((ss.map String.length).foldl Nat.max s.length)

/-- The min/max character length of one text column of the frame, as
computed by `lab_7_llm`'s `_count_min`/`_count_max`. -/
def textStats (t : Table) (name : String) : Except String (Nat × Nat) :=
  match getColumn t name with
  | Except.error e => Except.error e
  | Except.ok col =>
    match cellStrings col with
    | Except.error e => Except.error e
    | Except.ok ss =>
      match pyMinLen ss, pyMaxLen ss with
      | Except.ok lo, Except.ok hi => Except.ok (lo, hi)
      | Except.error e, _ => Except.error e
      | _, Except.error e => Except.error e

/-- Embeds `lab_7_llm.RawDataPreprocessor.analyze`: row count, column count,
exact-duplicate row count (`duplicated().sum()`), count of rows with a
missing or empty-string field (`len(df) - len(df.replace('', nan).dropna())`),
and the min/max length over the `premise` and `hypothesis` columns. -/
def analyze7 (t : Table) : Except String AnalyzeReport :=
  match textStats t "premise", textStats t "hypothesis" with
  | Except.ok p, Except.ok h =>
    Except.ok
      { samples := t.rows.length,
        columns := t.cols.length,
        duplicates := (duplicatedFlags (t.rows.map Prod.snd) []).count true,
        emptyRows := t.rows.length - ((t.replaceEmptyNa).dropna).rows.length,
        minLen := Nat.min p.1 h.1,
        maxLen := Nat.max p.2 h.2 }
  | Except.error e, _ => Except.error e
  | _, Except.error e => Except.error e

/-- Embeds `lab_8_llm.RawDataPreprocessor.analyze`: duplicates are counted over the
`question` column only, empty rows are the rows with a `NaN` cell (empty
strings are not counted), and the sample lengths are taken over the
`question` column of `dropna()` of the frame.  (`Series.min()` of an empty
series would yield `NaN`; that degenerate case is modelled as an error.) -/
def analyze8 (t : Table) : Except String AnalyzeReport :=
  match getColumn t "question" with
  | Except.error e => Except.error e
  | Except.ok q =>
    match getColumn t.dropna "question" with
    | Except.error e => Except.error e
    | Except.ok qd =>
      match cellStrings qd with
      | Except.error e => Except.error e
      | Except.ok [] => Except.error "nan"
      | Except.ok (s :: ss) =>
        Except.ok
          { samples := t.rows.length,
            columns := t.cols.length,
            duplicates := (duplicatedFlags q []).count true,
            emptyRows :=
              (t.rows.filter (fun r => r.2.any (fun c => c.isNone))).length,
            minLen := (ss.map String.length).foldl Nat.min s.length,
            maxLen := (ss.map String.length).foldl Nat.max s.length }

/-! ### Batching and inference (`LLMPipeline`) -/

/-- Torch `torch.utils.data.DataLoader(dataset, batch_size=B)`: splits the dataset
into consecutive batches.  Every batch holds the next `B` records (fewer for
the final one); `DataLoader` rejects `batch_size = 0`, and the theorems below
accordingly assume `0 < B` (for `B = 0` this function degenerates to
singleton batches). -/
def chunks {α : Type} (B : Nat) : List α → List (List α)
  | [] => []
  | x :: xs => (x :: xs.take (B - 1)) :: chunks B (xs.drop (B - 1))
  termination_by l => l.length
  decreasing_by
    simp only [List.length_drop, List.length_cons]
    omega

/-- Python `str.removeprefix`: when `p` is a prefix of `s`, the remainder of
`s` after `p`; otherwise `s` unchanged. -/
def removePrefixPy (s p : String) : String :=
  if p.data.isPrefixOf s.data then String.mk (s.data.drop p.data.length) else s

/-- The prediction obtained for one input of a batch: the decoded generation
output (abstracted as `gen q`) with the echoed prompt plus `"\n"` stripped
when present.  `gen` stands for the tokenizer/`model.generate`/`batch_decode`
composite, which yields exactly one decoded string per batched input. -/
def inferOne (gen : String → String) (q : String) : String :=
  removePrefixPy (gen q) (q ++ "\n")

/-- Embeds `lab_8_llm.LLMPipeline._infer_batch`: decode one generated sequence per
input and strip the echoed prompt; result `i` is built from input `i`
(`for i, text in enumerate(generated_texts)` with `sample_batch[0][i]`). -/
def inferBatch (gen : String → String) (inputs : List String) : List String :=
  List.zipWith (fun q text => removePrefixPy text (q ++ "\n")) inputs (inputs.map gen)

/-- The `DataFrame` returned by `infer_dataset`: a `target` column and a
`predictions` column. -/
structure PredTable where
  target : List String
  predictions : List String
  deriving DecidableEq, Repr

/-- Embeds `lab_8_llm.LLMPipeline.infer_dataset`: the dataset rows are (question,
target) pairs; the `DataLoader` yields the question column in batches of
`B` (default collation of 1-tuples), each batch is inferred in order, and
the final frame pairs the dataset's `target` column with the accumulated
predictions. -/
def inferDataset (gen : String → String) (B : Nat)
    (ds : List (String × String)) : PredTable :=
  { target := ds.map Prod.snd,
    predictions := ((chunks B (ds.map Prod.fst)).map (inferBatch gen)).flatten }

/-- Embeds `lab_8_llm.LLMPipeline.infer_sample`: `None` when no model is bound,
otherwise `_infer_batch((sample,), …)[0]`, i.e. the batch path on the
sample's input strings, keeping the first result.  (The `IndexError` of
`[0]` on an empty tuple is modelled as `none`.) -/
def inferSample8 (model : Option (String → String)) (sample : List String) :
    Option String :=
  match model with
  | none => none
  | some gen => (inferBatch gen sample).get? 0

/-! ### Model introspection (`analyze_model`) -/

/-- The fields of the HuggingFace model `config` read by `analyze_model`. -/
structure ModelConfig where
  maxPositionEmbeddings : Nat
  vocabSize : Nat
  maxLength : Nat
  deriving DecidableEq, Repr

/-- A bound torch model: its `config`, together with the statistics that
`torchinfo.summary` would report for it. -/
structure TorchModel where
  config : ModelConfig
  trainableParams : Nat
  totalParamBytes : Nat
  lastOutputSize : List Nat
  deriving DecidableEq, Repr

/-- The part of `torchinfo.ModelStatistics` that `analyze_model` reads. -/
structure SummaryInfo where
  inputSize : List Nat
  trainableParams : Nat
  totalParamBytes : Nat
  lastOutputSize : List Nat
  deriving DecidableEq, Repr

/-- Modelled from the spec: `torchinfo.summary` is an external collaborator
(§4.3); it runs one forward pass on the given input data and reports the
input shape it was handed along with the model's parameter statistics. -/
def summary (m : TorchModel) (inputShape : List Nat) : SummaryInfo :=
  { inputSize := inputShape,
    trainableParams := m.trainableParams,
    totalParamBytes := m.totalParamBytes,
    lastOutputSize := m.lastOutputSize }

/-- A value of the heterogeneous `analyze_model` report. -/
inductive RVal where
  | nat (n : Nat)
  | str (s : String)
  | shape (l : List Nat)
  | shapeMap (m : List (String × List Nat))
  deriving DecidableEq, Repr

/-- Embeds `lab_8_llm.LLMPipeline.analyze_model`: empty report when no model is
bound; otherwise the summary of a forward pass on `torch.ones(1,
config.max_position_embeddings)` — the leading dimension is the literal `1`,
not the pipeline's `batchSize` (which the method never reads). -/
def analyzeModel8 (model : Option TorchModel) (batchSize : Nat) :
    List (String × RVal) :=
  match model with
  | none => []
  | some m =>
    let info := summary m [1, m.config.maxPositionEmbeddings]
    [("input_shape", RVal.shapeMap [("attention_mask", info.inputSize),
                                    ("input_ids", info.inputSize)]),
     ("embedding_size", RVal.nat m.config.maxPositionEmbeddings),
     ("output_shape", RVal.shape info.lastOutputSize),
     ("num_trainable_params", RVal.nat info.trainableParams),
     ("vocab_size", RVal.nat m.config.vocabSize),
     ("size", RVal.nat info.totalParamBytes),
     ("max_context_length", RVal.nat m.config.maxLength)]

/-- Embeds `lab_7_llm.LLMPipeline.analyze_model`: reads `self._model.config`
unconditionally, so with no model bound the attribute access on `None`
raises; with a model it summarizes a forward pass on
`torch.ones(batch_size, max_position_embeddings)` and reports the literal
placeholder string for `max_context_length`. -/
def analyzeModel7 (model : Option TorchModel) (batchSize : Nat) :
    Except String (List (String × RVal)) :=
  match model with
  | none => Except.error "AttributeError"
  | some m =>
    let ids := [batchSize, m.config.maxPositionEmbeddings]
    let info := summary m ids
    Except.ok
      [("input_shape", RVal.shapeMap [("input_ids", ids),
                                      ("attention_mask", ids)]),
       ("embedding_size", RVal.nat m.config.maxPositionEmbeddings),
       ("output_shape", RVal.shape info.lastOutputSize),
       ("num_trainable_params", RVal.nat info.trainableParams),
       ("vocab_size", RVal.nat m.config.vocabSize),
       ("size", RVal.nat info.totalParamBytes),
       ("max_context_length", RVal.str "idk where to get it")]

/-! ### Evaluation (`TaskEvaluator.run`) -/

/-- Python `dict` assignment `d[k] = v`: update in place when the key is
present (keeping its position), append otherwise. -/
def dictInsert {V : Type} (d : List (String × V)) (k : String) (v : V) :
    List (String × V) :=
  if k ∈ d.map Prod.fst then
    d.map (fun p => if p.1 = k then (k, v) else p)
  else
    d ++ [(k, v)]

/-- The scalar `TaskEvaluator.run` extracts from one metric's computed score
mapping: `score.get(name + "L")` for the ROUGE family, `score.get(name)`
otherwise (`dict.get` yields `None` when the key is absent). -/
def selectScore {V : Type} (metricName : String) (score : List (String × V)) :
    Option V :=
  if metricName = "rouge" then score.lookup (metricName ++ "L")
  else score.lookup metricName

/-- Embeds `lab_8_llm.TaskEvaluator.run`: for each requested metric, compute its
score mapping over the prediction/reference columns (abstracted as
`compute`, a closure over the loaded prediction table) and store the
selected scalar under the metric's name.  The `dict` is always returned,
despite the declared `dict | None`. -/
def runEval {V : Type} (compute : String → List (String × V))
    (metrics : List String) : Option (List (String × Option V)) :=
  some (metrics.foldl
    (fun sc m => dictInsert sc m (selectScore m (compute m))) [])

/-- First-occurrence order of a list of names, given the names already
seen: the key order a Python `dict` ends up with after inserting the names
left to right. -/
def firstOccurAux : List String → List String → List String
  | [], _ => []
  | m :: ms, seen =>
    if m ∈ seen then firstOccurAux ms seen
    else m :: firstOccurAux ms (seen ++ [m])

/-- First-occurrence order of a list of names. -/
def firstOccur (ms : List String) : List String :=
  firstOccurAux ms []

/-! ### Concrete fixtures used by witnesses and counterexamples -/

/-- A tiny generation oracle: echoes the prompt, a newline, then `ok`. -/
def genOk : String → String := fun s => s ++ "\n" ++ "ok"

/-! ### Lemmas about batching -/

theorem chunks_flatten {α : Type} (B : Nat) :
    ∀ l : List α, (chunks B l).flatten = l
  | [] => by simp [chunks]
  | x :: xs => by
    have ih := chunks_flatten B (xs.drop (B - 1))
    simp [chunks, ih]
  termination_by l => l.length
  decreasing_by simp only [List.length_drop, List.length_cons]; omega

theorem chunks_length {α : Type} {B : Nat} (hB : 0 < B) :
    ∀ l : List α, (chunks B l).length = (l.length + B - 1) / B
  | [] => by
    simp only [chunks, List.length_nil]
    rw [Nat.div_eq_of_lt (by omega)]
  | x :: xs => by
    have ih := chunks_length hB (xs.drop (B - 1))
    simp only [List.length_drop] at ih
    simp only [chunks, List.length_cons, ih]
    rcases le_or_lt (B - 1) xs.length with hc | hc
    · have h1 : xs.length - (B - 1) + B - 1 = xs.length := by omega
      have h2 : xs.length + 1 + B - 1 = xs.length + B := by omega
      rw [h1, h2, Nat.add_div_right _ hB]
    · have h1 : xs.length - (B - 1) + B - 1 = B - 1 := by omega
      have h2 : xs.length + 1 + B - 1 = xs.length + B := by omega
      rw [h1, h2, Nat.add_div_right _ hB,
          Nat.div_eq_of_lt (show B - 1 < B by omega),
          Nat.div_eq_of_lt (show xs.length < B by omega)]
  termination_by l => l.length
  decreasing_by simp only [List.length_drop, List.length_cons]; omega

theorem chunks_ne_nil {α : Type} (B : Nat) :
    ∀ l : List α, ∀ c ∈ chunks B l, c ≠ []
  | [] => by simp [chunks]
  | x :: xs => by
    have ih := chunks_ne_nil B (xs.drop (B - 1))
    intro c hc
    simp only [chunks, List.mem_cons] at hc
    rcases hc with rfl | hc
    · simp
    · exact ih c hc
  termination_by l => l.length
  decreasing_by simp only [List.length_drop, List.length_cons]; omega

/-! ### Lemmas about prompt stripping -/

theorem isPrefixOf_append_self {α : Type} [BEq α] [LawfulBEq α] :
    ∀ l1 l2 : List α, l1.isPrefixOf (l1 ++ l2) = true
  | [], _ => by simp [List.isPrefixOf]
  | a :: l1, l2 => by
    have ih := isPrefixOf_append_self l1 l2
    simp [List.isPrefixOf, ih]

theorem removePrefixPy_of_echo (p c : String) :
    removePrefixPy (p ++ c) p = c := by
  unfold removePrefixPy
  rw [String.data_append, if_pos]
  · rw [List.drop_left]
  · exact isPrefixOf_append_self p.data c.data

theorem removePrefixPy_of_not (s p : String)
    (h : p.data.isPrefixOf s.data = false) : removePrefixPy s p = s := by
  unfold removePrefixPy
  rw [if_neg]
  simp [h]

theorem inferBatch_eq_map (gen : String → String) (inputs : List String) :
    inferBatch gen inputs = inputs.map (inferOne gen) := by
  unfold inferBatch
  rw [List.zipWith_map_right, List.zipWith_same]
  rfl

/-! ### Claim C5 -/

/-- C5: for a dataset of length `N` and batch size `B > 0`, the `DataLoader`
produces exactly `⌈N / B⌉` batches (zero batches iff the dataset is empty),
no batch is empty, and the concatenation of the batches in order is the
dataset itself — no gaps, no reordering, no duplicates. -/
theorem batching_spec {α : Type} (B : Nat) (l : List α) (hB : 0 < B) :
    (chunks B l).length = (l.length + B - 1) / B ∧
    (chunks B l = [] ↔ l = []) ∧
    (∀ c ∈ chunks B l, c ≠ []) ∧
    (chunks B l).flatten = l := by
  refine ⟨chunks_length hB l, ?_, chunks_ne_nil B l, chunks_flatten B l⟩
  cases l <;> simp [chunks]

theorem batching_spec_witness :
    0 < 2 ∧ (chunks 2 [0, 1, 2, 3, 4]).length = (5 + 2 - 1) / 2 :=
  ⟨by decide, (batching_spec 2 [0, 1, 2, 3, 4] (by decide)).1⟩

/-! ### Claim C2 -/

/-- C2: `_infer_batch` gives one prediction per input, in batch order: the
`i`-th result is the decoded output for input `i` with the echoed prompt
plus the `"\n"` separator removed when present; a decoded string not
carrying that prefix is returned unchanged — and when the decoded output is
exactly the prompt, `"\n"`, then a continuation, the result is exactly the
continuation. -/
theorem infer_batch_strip_echo (gen : String → String) (inputs : List String) :
    inferBatch gen inputs = inputs.map (inferOne gen) ∧
    (∀ q cont : String, removePrefixPy (q ++ "\n" ++ cont) (q ++ "\n") = cont) ∧
    (∀ s p : String, p.data.isPrefixOf s.data = false → removePrefixPy s p = s) := by
  refine ⟨inferBatch_eq_map gen inputs, ?_, removePrefixPy_of_not⟩
  intro q cont
  exact removePrefixPy_of_echo (q ++ "\n") cont

theorem infer_batch_strip_echo_witness :
    removePrefixPy ("ab" ++ "\n" ++ "cd") ("ab" ++ "\n") = "cd" ∧
    removePrefixPy "zzz" ("ab" ++ "\n") = "zzz" :=
  ⟨(infer_batch_strip_echo id []).2.1 "ab" "cd",
   (infer_batch_strip_echo id []).2.2 "zzz" ("ab" ++ "\n") (by decide)⟩

/-! ### Claim C1 -/

/-- C1: `infer_dataset` returns a table with as many rows as the dataset;
its `target` column is the dataset's `TARGET` column in original order and
its `predictions` column has, at position `i`, exactly the prediction
produced for record `i` — no gaps, reordering or duplication.  (`0 < B`
mirrors `DataLoader`'s rejection of a zero batch size.) -/
theorem infer_dataset_rows (gen : String → String) (B : Nat)
    (ds : List (String × String)) (hB : 0 < B) :
    inferDataset gen B ds =
      { target := ds.map Prod.snd,
        predictions := ds.map (fun r => inferOne gen r.1) } ∧
    (inferDataset gen B ds).target.length = ds.length ∧
    (inferDataset gen B ds).predictions.length = ds.length := by
  have hpred : ((chunks B (ds.map Prod.fst)).map (inferBatch gen)).flatten
      = ds.map (fun r => inferOne gen r.1) := by
    have h1 : (chunks B (ds.map Prod.fst)).map (inferBatch gen)
        = (chunks B (ds.map Prod.fst)).map (List.map (inferOne gen)) :=
      List.map_congr_left (fun c _ => inferBatch_eq_map gen c)
    rw [h1, ← List.map_flatten, chunks_flatten, List.map_map]
    rfl
  refine ⟨?_, ?_, ?_⟩
  · simp only [inferDataset]
    rw [hpred]
  · simp [inferDataset]
  · simp only [inferDataset]
    rw [hpred, List.length_map]

theorem infer_dataset_rows_witness :
    0 < 2 ∧ inferDataset genOk 2 [("q1", "t1"), ("q2", "t2"), ("q3", "t3")] =
      { target := ["t1", "t2", "t3"], predictions := ["ok", "ok", "ok"] } := by
  refine ⟨by decide, ?_⟩
  rw [(infer_dataset_rows genOk 2 [("q1", "t1"), ("q2", "t2"), ("q3", "t3")]
        (by decide)).1]
  decide

/-! ### Claim C7 -/

/-- C7 counterexample: `lab_7_llm`'s `analyze_model` does not return an
empty report when no model is bound — it reads `self._model.config`
unconditionally, so the attribute access on `None` raises instead. -/
theorem analyze_model7_raises_unbound :
    analyzeModel7 none 1 = Except.error "AttributeError" ∧
    analyzeModel7 none 1 ≠ Except.ok [] := by
  refine ⟨rfl, fun h => ?_⟩
  rw [show analyzeModel7 none 1 = Except.error "AttributeError" from rfl] at h
  exact Except.noConfusion h

/-- C7 amended: in `lab_8_llm`, with no model bound `analyze_model` returns
the empty report and `infer_sample` returns `None`, neither raising; with a
model bound, `infer_sample` delegates to `_infer_batch` on a singleton batch
and returns its single result.  `lab_7_llm`'s `analyze_model` instead
assumes a bound model (raising otherwise). -/
theorem pipeline8_unbound_and_delegation (sample : List String)
    (bs : Nat) (gen : String → String) (q : String) :
    inferSample8 none sample = none ∧
    analyzeModel8 none bs = [] ∧
    inferBatch gen [q] = [inferOne gen q] ∧
    inferSample8 (some gen) [q] = some (inferOne gen q) := by
  refine ⟨rfl, rfl, ?_, ?_⟩
  · rw [inferBatch_eq_map]
    rfl
  · simp only [inferSample8]
    rw [inferBatch_eq_map]
    rfl

/-! ### Claim C9 -/

/-- A concrete GPT-Neo-shaped model used to exhibit the input-shape
deviation of `lab_8_llm.analyze_model`. -/
def exModel : TorchModel :=
  { config := { maxPositionEmbeddings := 2048, vocabSize := 50257,
                maxLength := 20 },
    trainableParams := 125000000,
    totalParamBytes := 500000000,
    lastOutputSize := [1, 2048, 50257] }

/-- C9 counterexample: with a bound model and a configured batch size of 2,
`lab_8_llm.analyze_model` reports the input shape
`[1, max_position_embeddings]` — the leading dimension is the literal `1`,
not the pipeline's batch size. -/
theorem analyze_model8_shape_ignores_batch :
    (analyzeModel8 (some exModel) 2).lookup "input_shape" =
      some (RVal.shapeMap [("attention_mask", [1, 2048]),
                           ("input_ids", [1, 2048])]) ∧
    RVal.shapeMap [("attention_mask", [1, 2048]), ("input_ids", [1, 2048])] ≠
      RVal.shapeMap [("attention_mask", [2, 2048]), ("input_ids", [2, 2048])] := by
  exact ⟨rfl, by decide⟩

/-- C9 amended: with a bound model, `lab_8_llm.analyze_model` summarizes a
forward pass over an all-ones input of shape `[1, max_position_embeddings]`
(independent of the configured batch size) and reports the input/output
shapes, trainable-parameter count, parameter byte size, vocabulary size,
`max_position_embeddings` under `embedding_size`, and `config.max_length`
under `max_context_length`; `lab_7_llm.analyze_model` does use
`[batch_size, max_position_embeddings]` but reports a literal placeholder
string instead of a context length. -/
theorem analyze_model_reports (m : TorchModel) (bs : Nat) :
    (analyzeModel8 (some m) bs).lookup "input_shape" =
      some (RVal.shapeMap
        [("attention_mask", [1, m.config.maxPositionEmbeddings]),
         ("input_ids", [1, m.config.maxPositionEmbeddings])]) ∧
    (analyzeModel8 (some m) bs).lookup "embedding_size" =
      some (RVal.nat m.config.maxPositionEmbeddings) ∧
    (analyzeModel8 (some m) bs).lookup "output_shape" =
      some (RVal.shape m.lastOutputSize) ∧
    (analyzeModel8 (some m) bs).lookup "num_trainable_params" =
      some (RVal.nat m.trainableParams) ∧
    (analyzeModel8 (some m) bs).lookup "vocab_size" =
      some (RVal.nat m.config.vocabSize) ∧
    (analyzeModel8 (some m) bs).lookup "size" =
      some (RVal.nat m.totalParamBytes) ∧
    (analyzeModel8 (some m) bs).lookup "max_context_length" =
      some (RVal.nat m.config.maxLength) ∧
    (analyzeModel7 (some m) bs).map (fun r => r.lookup "input_shape") =
      Except.ok (some (RVal.shapeMap
        [("input_ids", [bs, m.config.maxPositionEmbeddings]),
         ("attention_mask", [bs, m.config.maxPositionEmbeddings])])) ∧
    (analyzeModel7 (some m) bs).map (fun r => r.lookup "max_context_length") =
      Except.ok (some (RVal.str "idk where to get it")) := by
  exact ⟨rfl, rfl, rfl, rfl, rfl, rfl, rfl, rfl, rfl⟩

/-! ### Lemmas about the evaluator's dictionary -/

theorem dictInsert_keys {W : Type} (d : List (String × W)) (k : String) (v : W) :
    (dictInsert d k v).map Prod.fst =
      if k ∈ d.map Prod.fst then d.map Prod.fst else d.map Prod.fst ++ [k] := by
  unfold dictInsert
  by_cases hk : k ∈ d.map Prod.fst
  · rw [if_pos hk, if_pos hk, List.map_map]
    apply List.map_congr_left
    intro p _
    by_cases hpk : p.1 = k
    · simp [Function.comp, hpk]
    · simp [Function.comp, hpk]
  · rw [if_neg hk, if_neg hk, List.map_append]
    rfl

theorem lookup_map_replace {W : Type} (d : List (String × W)) (k : String)
    (v : W) (hk : k ∈ d.map Prod.fst) :
    (d.map (fun p => if p.1 = k then (k, v) else p)).lookup k = some v := by
  induction d with
  | nil => simp at hk
  | cons p d ih =>
    obtain ⟨pk, pv⟩ := p
    rw [List.map_cons]
    by_cases hpk : pk = k
    · rw [if_pos hpk, List.lookup_cons]
      simp
    · rw [if_neg hpk]
      have hk' : k ∈ d.map Prod.fst := by
        simp only [List.map_cons, List.mem_cons] at hk
        rcases hk with hk | hk
        · exact absurd hk.symm hpk
        · exact hk
      have hne : (k == pk) = false := by
        simp only [beq_eq_false_iff_ne, ne_eq]
        exact fun h => hpk h.symm
      rw [List.lookup_cons, hne, ih hk']

theorem lookup_append_single {W : Type} (d : List (String × W)) (k : String)
    (v : W) (hk : k ∉ d.map Prod.fst) :
    (d ++ [(k, v)]).lookup k = some v := by
  induction d with
  | nil => simp [List.lookup_cons]
  | cons p d ih =>
    obtain ⟨pk, pv⟩ := p
    have hne : (k == pk) = false := by
      simp only [beq_eq_false_iff_ne, ne_eq]
      intro h
      exact hk (by simp [h])
    have hk' : k ∉ d.map Prod.fst := fun h => hk (by simp [h])
    rw [List.cons_append, List.lookup_cons, hne, ih hk']

theorem dictInsert_lookup_self {W : Type} (d : List (String × W)) (k : String)
    (v : W) : (dictInsert d k v).lookup k = some v := by
  unfold dictInsert
  by_cases hk : k ∈ d.map Prod.fst
  · rw [if_pos hk]
    exact lookup_map_replace d k v hk
  · rw [if_neg hk]
    exact lookup_append_single d k v hk

theorem dictInsert_lookup_ne {W : Type} (d : List (String × W))
    (k k' : String) (v : W) (hne : k' ≠ k) :
    (dictInsert d k v).lookup k' = d.lookup k' := by
  unfold dictInsert
  have hne' : (k' == k) = false := by
    simp only [beq_eq_false_iff_ne, ne_eq]
    exact hne
  by_cases hk : k ∈ d.map Prod.fst
  · rw [if_pos hk]
    clear hk
    induction d with
    | nil => rfl
    | cons p d ih =>
      obtain ⟨pk, pv⟩ := p
      rw [List.map_cons]
      by_cases hpk : pk = k
      · rw [if_pos hpk, List.lookup_cons, List.lookup_cons]
        subst hpk
        rw [hne']
        exact ih
      · rw [if_neg hpk, List.lookup_cons, List.lookup_cons]
        cases hkp' : (k' == pk)
        · exact ih
        · rfl
  · rw [if_neg hk]
    clear hk
    induction d with
    | nil =>
      rw [List.nil_append, List.lookup_cons, hne']
    | cons p d ih =>
      obtain ⟨pk, pv⟩ := p
      rw [List.cons_append, List.lookup_cons, List.lookup_cons]
      cases hkp' : (k' == pk)
      · exact ih
      · rfl

theorem foldl_dictInsert_keys {W : Type} (v : String → W) :
    ∀ (ms : List String) (d : List (String × W)),
      (ms.foldl (fun sc m => dictInsert sc m (v m)) d).map Prod.fst =
        d.map Prod.fst ++ firstOccurAux ms (d.map Prod.fst) := by
  intro ms
  induction ms with
  | nil => intro d; simp [firstOccurAux]
  | cons m ms ih =>
    intro d
    simp only [List.foldl_cons, firstOccurAux]
    by_cases hm : m ∈ d.map Prod.fst
    · rw [if_pos hm, ih (dictInsert d m (v m)), dictInsert_keys, if_pos hm]
    · rw [if_neg hm, ih (dictInsert d m (v m)), dictInsert_keys, if_neg hm,
          List.append_assoc]
      simp

theorem foldl_dictInsert_lookup {W : Type} (v : String → W) :
    ∀ (ms : List String) (d : List (String × W)) (m : String),
      (m ∈ ms ∨ d.lookup m = some (v m)) →
      (ms.foldl (fun sc m' => dictInsert sc m' (v m')) d).lookup m = some (v m) := by
  intro ms
  induction ms with
  | nil =>
    intro d m h
    rcases h with h | h
    · simp at h
    · simpa using h
  | cons m' ms ih =>
    intro d m h
    simp only [List.foldl_cons]
    apply ih
    by_cases hmm : m = m'
    · subst hmm
      right
      exact dictInsert_lookup_self d m (v m)
    · rcases h with h | h
      · rcases List.mem_cons.mp h with h1 | h1
        · exact absurd h1 hmm
        · exact Or.inl h1
      · right
        rw [dictInsert_lookup_ne d m' m (v m') hmm]
        exact h

theorem firstOccurAux_not_mem_seen :
    ∀ (ms seen : List String) (x : String), x ∈ firstOccurAux ms seen → x ∉ seen := by
  intro ms
  induction ms with
  | nil => intro seen x h; simp [firstOccurAux] at h
  | cons m ms ih =>
    intro seen x h
    simp only [firstOccurAux] at h
    by_cases hm : m ∈ seen
    · rw [if_pos hm] at h
      exact ih seen x h
    · rw [if_neg hm] at h
      rcases List.mem_cons.mp h with rfl | h
      · exact hm
      · intro hx
        exact ih (seen ++ [m]) x h (by simp [hx])

theorem firstOccurAux_nodup :
    ∀ (ms seen : List String), (firstOccurAux ms seen).Nodup := by
  intro ms
  induction ms with
  | nil => intro seen; simp [firstOccurAux]
  | cons m ms ih =>
    intro seen
    simp only [firstOccurAux]
    by_cases hm : m ∈ seen
    · rw [if_pos hm]
      exact ih seen
    · rw [if_neg hm]
      refine List.Nodup.cons ?_ (ih (seen ++ [m]))
      intro hmem
      exact firstOccurAux_not_mem_seen ms (seen ++ [m]) m hmem (by simp)

theorem firstOccurAux_mem :
    ∀ (ms seen : List String) (m : String), m ∈ ms → m ∉ seen →
      m ∈ firstOccurAux ms seen := by
  intro ms
  induction ms with
  | nil => intro seen m h; simp at h
  | cons m' ms ih =>
    intro seen m h hseen
    simp only [firstOccurAux]
    by_cases hm' : m' ∈ seen
    · rw [if_pos hm']
      rcases List.mem_cons.mp h with rfl | h
      · exact absurd hm' hseen
      · exact ih seen m h hseen
    · rw [if_neg hm']
      rcases List.mem_cons.mp h with rfl | h
      · exact List.mem_cons_self m _
      · by_cases hmm : m = m'
        · subst hmm
          exact List.mem_cons_self m _
        · exact List.mem_cons_of_mem m'
            (ih (seen ++ [m']) m h (by simp [hseen, hmm]))

/-! ### Claim C10 -/

/-- C10: `TaskEvaluator.run` on a readable prediction table always returns a
dictionary (never `None`, despite the declared `dict | None`): its keys are
exactly the requested metric names in first-given order — one entry per
requested metric, even when a metric is requested twice — and the empty
metric list yields the empty dictionary. -/
theorem evaluator_total_ordered (V : Type)
    (compute : String → List (String × V)) (metrics : List String) :
    (runEval compute metrics).map (fun d => d.map Prod.fst) =
      some (firstOccur metrics) ∧
    runEval compute ([] : List String) = some [] ∧
    (∀ m ∈ metrics,
      (((runEval compute metrics).getD []).map Prod.fst).count m = 1) := by
  have hkeys :
      (metrics.foldl
        (fun sc m => dictInsert sc m (selectScore m (compute m))) []).map
          Prod.fst = firstOccur metrics := by
    rw [foldl_dictInsert_keys (fun m => selectScore m (compute m)) metrics []]
    rfl
  refine ⟨?_, rfl, ?_⟩
  · simp only [runEval, Option.map]
    rw [hkeys]
  · intro m hm
    simp only [runEval, Option.getD_some]
    rw [hkeys]
    exact List.count_eq_one_of_mem (firstOccurAux_nodup metrics [])
      (firstOccurAux_mem metrics [] m hm (by simp))

/-- A concrete scoring oracle: the ROUGE family plus single-valued metrics. -/
def cmpEx : String → List (String × Nat)
  | "rouge" => [("rouge1", 1), ("rouge2", 2), ("rougeL", 3)]
  | m => [(m, 7)]

theorem evaluator_total_ordered_witness :
    (((runEval cmpEx ["rouge", "bleu", "rouge"]).getD []).map
      Prod.fst).count "rouge" = 1 :=
  (evaluator_total_ordered Nat cmpEx ["rouge", "bleu", "rouge"]).2.2 "rouge"
    (by decide)

/-! ### Claim C6 -/

/-- C6: every requested metric ends up with exactly one entry in the result,
under the metric's own name; for the ROUGE family the retained scalar is the
`rougeL` member of the computed sub-score family, and for any other metric
it is the value stored under the metric's own name. -/
theorem evaluator_one_scalar (V : Type)
    (compute : String → List (String × V)) (metrics : List String)
    (m : String) (hm : m ∈ metrics) :
    ((runEval compute metrics).getD []).lookup m =
      some (selectScore m (compute m)) ∧
    (m = "rouge" → selectScore m (compute m) = (compute m).lookup "rougeL") ∧
    (m ≠ "rouge" → selectScore m (compute m) = (compute m).lookup m) ∧
    (((runEval compute metrics).getD []).map Prod.fst).count m = 1 := by
  refine ⟨?_, ?_, ?_, ?_⟩
  · simp only [runEval, Option.getD_some]
    exact foldl_dictInsert_lookup (fun m' => selectScore m' (compute m'))
      metrics [] m (Or.inl hm)
  · intro h
    subst h
    rfl
  · intro h
    simp [selectScore, h]
  · simp only [runEval, Option.getD_some]
    rw [foldl_dictInsert_keys (fun m' => selectScore m' (compute m')) metrics []]
    exact List.count_eq_one_of_mem (firstOccurAux_nodup metrics [])
      (firstOccurAux_mem metrics [] m hm (by simp))

theorem evaluator_one_scalar_witness :
    ((runEval cmpEx ["rouge", "bleu"]).getD []).lookup "rouge" =
      some (some 3) := by
  rw [(evaluator_one_scalar Nat cmpEx ["rouge", "bleu"] "rouge" (by decide)).1]
  decide

/-! ### Lemmas about the preprocessor -/

theorem replCell_ne_empty (c : Cell) : replCell c ≠ some "" := by
  unfold replCell
  by_cases h : c = some ""
  · rw [if_pos h]
    exact fun hx => Option.noConfusion hx
  · rw [if_neg h]
    exact h

theorem replCell_of_isSome (c : Cell) (h : (replCell c).isSome = true) :
    replCell c = c := by
  unfold replCell at *
  by_cases hc : c = some ""
  · rw [if_pos hc] at h
    simp at h
  · rw [if_neg hc]

theorem map_replCell_of_full :
    ∀ cs : List Cell, (∀ x ∈ cs.map replCell, x.isSome = true) →
      cs.map replCell = cs
  | [], _ => rfl
  | c :: cs, h => by
    rw [List.map_cons, replCell_of_isSome c (h (replCell c) (by simp)),
        map_replCell_of_full cs (fun x hx => h x (by simp [hx]))]

/-- Every cell of every row of `transform7`'s output is a present,
non-empty string. -/
theorem transform7_cells (t : Table) :
    ∀ r ∈ (transform7 t).rows, ∀ c ∈ r.2, c.isSome = true ∧ c ≠ some "" := by
  intro r hr c hc
  simp only [transform7, Table.resetIndex] at hr
  have hr2 := List.mem_map_of_mem Prod.snd hr
  rw [List.enum_map_snd] at hr2
  rcases List.mem_map.mp hr2 with ⟨r', hr', hsnd⟩
  simp only [Table.dropna] at hr'
  rcases List.mem_filter.mp hr' with ⟨hmem, hfull⟩
  have hc' : c ∈ r'.2 := by rw [hsnd]; exact hc
  constructor
  · unfold rowFull at hfull
    rw [List.all_eq_true] at hfull
    exact hfull c hc'
  · simp only [Table.replaceEmptyNa] at hmem
    rcases List.mem_map.mp hmem with ⟨r0, _, hr0⟩
    have hcells : c ∈ r0.2.map replCell := by
      rw [show r0.2.map replCell = r'.2 from congrArg Prod.snd hr0]
      exact hc'
    rcases List.mem_map.mp hcells with ⟨c0, _, hcc⟩
    rw [← hcc]
    exact replCell_ne_empty c0

/-! ### Claim C3 -/

/-- A raw TruthfulQA-shaped table with an empty `best_answer` and an exact
duplicate pair of rows. -/
def exTable8 : Table :=
  { cols := ["type", "category", "question", "best_answer",
             "correct_answers", "incorrect_answers", "source"],
    rows := [(0, [some "t", some "c", some "q1", some "", some "ca",
                  some "ia", some "s"]),
             (1, [some "t", some "c", some "q2", some "a2", some "ca",
                  some "ia", some "s"]),
             (2, [some "t", some "c", some "q2", some "a2", some "ca",
                  some "ia", some "s"])] }

/-- C3 counterexample: `lab_8_llm`'s `transform` only renames/selects
columns — its output still contains an empty-string canonical field and an
exact-duplicate pair of rows, so the claimed four steps are not applied by
every `transform` of the repository. -/
theorem transform8_keeps_empty_fields :
    (transform8 exTable8).map tableHasBad = Except.ok true ∧
    (transform8 exTable8).map (fun u => u.rows.length) = Except.ok 3 ∧
    (transform8 exTable8).map (fun u => (dedupKeyed Prod.snd u.rows []).length) =
      Except.ok 2 := by
  exact ⟨rfl, rfl, rfl⟩

/-- C3 amended: `lab_7_llm`'s `transform` does apply the four steps in the
claimed order — rename into canonical roles, drop exact-duplicate rows,
drop rows with a missing or empty field, re-index contiguously from zero —
and no row of its output has a missing or empty cell; `lab_8_llm`'s
`transform` only renames/selects columns. -/
theorem transform7_four_steps (t : Table) :
    transform7 t =
      ((((t.renameCols renameLabel).dropDuplicates).replaceEmptyNa).dropna).resetIndex ∧
    (∀ r ∈ (transform7 t).rows, ∀ c ∈ r.2, c ≠ none ∧ c ≠ some "") ∧
    (transform7 t).rows.map Prod.fst = List.range (transform7 t).rows.length := by
  refine ⟨rfl, ?_, ?_⟩
  · intro r hr c hc
    have h := transform7_cells t r hr c hc
    refine ⟨?_, h.2⟩
    intro hn
    rw [hn] at h
    exact Bool.noConfusion h.1
  · show ((((((t.renameCols renameLabel).dropDuplicates).replaceEmptyNa).dropna).rows.map
      Prod.snd).enum.map Prod.fst) = _
    rw [List.enum_map_fst]
    congr 1
    rw [show (transform7 t).rows =
      (((((t.renameCols renameLabel).dropDuplicates).replaceEmptyNa).dropna).rows.map
        Prod.snd).enum from rfl, List.enum_length, List.length_map]

/-- A raw XNLI-shaped table with an exact duplicate, an empty-string cell
and a missing cell. -/
def exTable7 : Table :=
  { cols := ["premise", "hypothesis", "label"],
    rows := [(0, [some "p", some "h", some "l"]),
             (1, [some "p", some "h", some "l"]),
             (2, [some "pp", some "", some "l2"]),
             (3, [some "ppp", some "hh", none])] }

theorem transform7_four_steps_witness :
    (some "p" : Cell) ≠ none ∧ (some "p" : Cell) ≠ some "" :=
  (transform7_four_steps exTable7).2.1 (0, [some "p", some "h", some "l"])
    (by decide) (some "p") (by decide)

/-! ### Idempotence of the lab_7 transform -/

theorem renameLabel_idem (c : String) :
    renameLabel (renameLabel c) = renameLabel c := by
  unfold renameLabel
  by_cases h : c = "label" <;> simp [h]

theorem dedupKeyed_not_seen {α κ : Type} [DecidableEq κ] (key : α → κ) :
    ∀ (l : List α) (seen : List κ), ∀ a ∈ dedupKeyed key l seen, key a ∉ seen := by
  intro l
  induction l with
  | nil =>
    intro seen a h
    simp [dedupKeyed] at h
  | cons x xs ih =>
    intro seen a h
    simp only [dedupKeyed] at h
    by_cases hx : key x ∈ seen
    · rw [if_pos hx] at h
      exact ih seen a h
    · rw [if_neg hx] at h
      rcases List.mem_cons.mp h with rfl | h
      · exact hx
      · intro hseen
        exact ih (key x :: seen) a h (List.mem_cons_of_mem _ hseen)

theorem dedupKeyed_pairwise {α κ : Type} [DecidableEq κ] (key : α → κ) :
    ∀ (l : List α) (seen : List κ),
      (dedupKeyed key l seen).Pairwise (fun a b => key a ≠ key b) := by
  intro l
  induction l with
  | nil => intro seen; simp [dedupKeyed]
  | cons x xs ih =>
    intro seen
    simp only [dedupKeyed]
    by_cases hx : key x ∈ seen
    · rw [if_pos hx]
      exact ih seen
    · rw [if_neg hx]
      refine List.Pairwise.cons ?_ (ih (key x :: seen))
      intro b hb he
      exact dedupKeyed_not_seen key xs (key x :: seen) b hb
        (he ▸ List.mem_cons_self _ _)

theorem dedupKeyed_eq_self {α κ : Type} [DecidableEq κ] (key : α → κ) :
    ∀ (l : List α) (seen : List κ),
      l.Pairwise (fun a b => key a ≠ key b) → (∀ a ∈ l, key a ∉ seen) →
      dedupKeyed key l seen = l := by
  intro l
  induction l with
  | nil => intro seen _ _; rfl
  | cons x xs ih =>
    intro seen hpw hd
    simp only [dedupKeyed]
    rw [if_neg (hd x (List.mem_cons_self _ _))]
    congr 1
    apply ih
    · exact hpw.of_cons
    · intro a ha hmem
      rcases List.mem_cons.mp hmem with he | hseen
      · exact List.rel_of_pairwise_cons hpw ha he.symm
      · exact hd a (List.mem_cons_of_mem _ ha) hseen

/-- The rows surviving `transform7` are pairwise distinct in their cells. -/
theorem transform7_rows_pairwise (t : Table) :
    (transform7 t).rows.Pairwise (fun a b => a.2 ≠ b.2) := by
  have hD : ((t.renameCols renameLabel).dropDuplicates).rows.Pairwise
      (fun a b => a.2 ≠ b.2) := dedupKeyed_pairwise Prod.snd _ []
  have hfilter :
      ((((t.renameCols renameLabel).dropDuplicates).replaceEmptyNa).dropna).rows =
        (((t.renameCols renameLabel).dropDuplicates).rows.filter
          (fun r => rowFull (r.2.map replCell))).map
            (fun r => (r.1, r.2.map replCell)) := by
    simp only [Table.replaceEmptyNa, Table.dropna]
    rw [List.filter_map]
    rfl
  have hL :
      (((((t.renameCols renameLabel).dropDuplicates).replaceEmptyNa).dropna).rows.map
        Prod.snd).Pairwise (fun a b => a ≠ b) := by
    rw [hfilter, List.map_map, List.pairwise_map]
    have hsub : (((t.renameCols renameLabel).dropDuplicates).rows.filter
        (fun r => rowFull (r.2.map replCell))).Pairwise (fun a b => a.2 ≠ b.2) :=
      hD.sublist (List.filter_sublist _)
    refine hsub.imp_of_mem ?_
    intro a b ha hb hne he
    apply hne
    have hfa : rowFull (a.2.map replCell) = true :=
      (List.mem_filter.mp ha).2
    have hfb : rowFull (b.2.map replCell) = true :=
      (List.mem_filter.mp hb).2
    have ea : a.2.map replCell = a.2 := by
      apply map_replCell_of_full
      unfold rowFull at hfa
      rw [List.all_eq_true] at hfa
      exact hfa
    have eb : b.2.map replCell = b.2 := by
      apply map_replCell_of_full
      unfold rowFull at hfb
      rw [List.all_eq_true] at hfb
      exact hfb
    have he' := he
    simp only [Function.comp_apply] at he'
    rw [← ea, ← eb]
    exact he'
  have henum : (transform7 t).rows =
      (((((t.renameCols renameLabel).dropDuplicates).replaceEmptyNa).dropna).rows.map
        Prod.snd).enum := rfl
  rw [henum]
  refine List.pairwise_map.mp ?_
  rw [List.enum_map_snd]
  exact hL

theorem transform7_rename_fix (t : Table) :
    (transform7 t).renameCols renameLabel = transform7 t := by
  have hcols : (transform7 t).cols = t.cols.map renameLabel := rfl
  unfold Table.renameCols
  rw [hcols, List.map_map]
  have h : t.cols.map (renameLabel ∘ renameLabel) = t.cols.map renameLabel := by
    apply List.map_congr_left
    intro c _
    simp only [Function.comp_apply]
    exact renameLabel_idem c
  rw [h, ← hcols]

theorem transform7_dedup_fix (t : Table) :
    (transform7 t).dropDuplicates = transform7 t := by
  unfold Table.dropDuplicates
  rw [dedupKeyed_eq_self Prod.snd (transform7 t).rows []
    (transform7_rows_pairwise t) (fun a _ h => List.not_mem_nil _ h)]

theorem transform7_repl_fix (t : Table) :
    (transform7 t).replaceEmptyNa = transform7 t := by
  unfold Table.replaceEmptyNa
  have h : (transform7 t).rows.map (fun r => (r.1, r.2.map replCell)) =
      (transform7 t).rows := by
    have h1 : (transform7 t).rows.map (fun r => (r.1, r.2.map replCell)) =
        (transform7 t).rows.map id := by
      apply List.map_congr_left
      intro r hr
      have hcells : r.2.map replCell = r.2 := by
        have h2 : r.2.map replCell = r.2.map id := by
          apply List.map_congr_left
          intro c hc
          have h3 := transform7_cells t r hr c hc
          simp only [id]
          unfold replCell
          rw [if_neg h3.2]
        rw [h2, List.map_id]
      rw [hcells]
      rfl
    rw [h1, List.map_id]
  rw [h]

theorem transform7_dropna_fix (t : Table) :
    (transform7 t).dropna = transform7 t := by
  unfold Table.dropna
  have h : (transform7 t).rows.filter (fun r => rowFull r.2) =
      (transform7 t).rows := by
    rw [List.filter_eq_self]
    intro r hr
    unfold rowFull
    rw [List.all_eq_true]
    intro c hc
    exact (transform7_cells t r hr c hc).1
  rw [h]

theorem transform7_reset_fix (t : Table) :
    (transform7 t).resetIndex = transform7 t := by
  have h : (transform7 t).rows =
      (((((t.renameCols renameLabel).dropDuplicates).replaceEmptyNa).dropna).rows.map
        Prod.snd).enum := rfl
  unfold Table.resetIndex
  rw [h, List.enum_map_snd, ← h]

/-! ### Claim C4 -/

/-- C4 counterexample: `lab_8_llm`'s `transform` is not idempotent — its
output lacks the five dropped columns, so re-applying it raises `KeyError`
rather than reproducing the table. -/
theorem transform8_not_idempotent :
    (transform8 exTable8).bind transform8 = Except.error "KeyError" ∧
    (transform8 exTable8).bind transform8 ≠ transform8 exTable8 := by
  refine ⟨rfl, fun h => ?_⟩
  have h2 := congrArg (Except.map (fun _ => true)) h
  rw [show ((transform8 exTable8).bind transform8).map (fun _ => true) =
        Except.error "KeyError" from rfl,
      show (transform8 exTable8).map (fun _ => true) = Except.ok true from rfl]
    at h2
  exact Except.noConfusion h2

/-- C4 amended: `lab_7_llm`'s `transform` is idempotent — re-applying it to
its own output reproduces that output exactly; `lab_8_llm`'s `transform`
is not (re-applying it fails on the already-dropped columns). -/
theorem transform7_idempotent (t : Table) :
    transform7 (transform7 t) = transform7 t := by
  show (((((transform7 t).renameCols
      renameLabel).dropDuplicates).replaceEmptyNa).dropna).resetIndex =
    transform7 t
  rw [transform7_rename_fix, transform7_dedup_fix, transform7_repl_fix,
      transform7_dropna_fix, transform7_reset_fix]

/-! ### Counting lemmas for the analyze claims -/

theorem dedupKeyed_congr_seen {α κ : Type} [DecidableEq κ] (key : α → κ) :
    ∀ (l : List α) (s₁ s₂ : List κ), (∀ x, x ∈ s₁ ↔ x ∈ s₂) →
      dedupKeyed key l s₁ = dedupKeyed key l s₂ := by
  intro l
  induction l with
  | nil => intro _ _ _; rfl
  | cons a as ih =>
    intro s₁ s₂ hmem
    simp only [dedupKeyed]
    by_cases h : key a ∈ s₁
    · rw [if_pos h, if_pos ((hmem _).mp h)]
      exact ih s₁ s₂ hmem
    · rw [if_neg h, if_neg (fun hx => h ((hmem _).mpr hx))]
      rw [ih (key a :: s₁) (key a :: s₂) (by intro x; simp [hmem x])]

/-- Flagged duplicates and kept firsts partition the series. -/
theorem duplicatedFlags_count {α : Type} [DecidableEq α] :
    ∀ (l seen : List α),
      (duplicatedFlags l seen).count true + (dedupKeyed id l seen).length =
        l.length := by
  intro l
  induction l with
  | nil => intro seen; rfl
  | cons a as ih =>
    intro seen
    simp only [duplicatedFlags, dedupKeyed, id]
    by_cases h : a ∈ seen
    · rw [if_pos h]
      rw [show decide (a ∈ seen) = true from by simp [h], List.count_cons_self]
      rw [dedupKeyed_congr_seen id as seen (a :: seen)
        (by intro x; simp; intro hx; rw [hx]; exact h)]
      have := ih (a :: seen)
      simp only [List.length_cons]
      omega
    · rw [if_neg h]
      rw [show decide (a ∈ seen) = false from by simp [h],
          List.count_cons_of_ne (by simp) (duplicatedFlags as (a :: seen))]
      have := ih (a :: seen)
      simp only [List.length_cons]
      omega

theorem dedup_cons_length {α : Type} [DecidableEq α] (a : α) (bs : List α) :
    (a :: bs).dedup.length =
      (bs.filter (fun x => decide (x ≠ a))).dedup.length + 1 := by
  rw [← List.card_toFinset, ← List.card_toFinset, List.toFinset_cons,
      List.toFinset_filter]
  simp only [decide_eq_true_eq]
  rw [Finset.filter_ne' bs.toFinset a,
      ← Finset.card_erase_add_one (Finset.mem_insert_self a bs.toFinset),
      Finset.erase_insert_eq_erase]

theorem dedupKeyed_id_length {α : Type} [DecidableEq α] :
    ∀ (l seen : List α),
      (dedupKeyed id l seen).length =
        (l.filter (fun x => decide (x ∉ seen))).dedup.length := by
  intro l
  induction l with
  | nil => intro seen; rfl
  | cons a as ih =>
    intro seen
    simp only [dedupKeyed, id, List.filter_cons]
    by_cases h : a ∈ seen
    · rw [if_pos h, show decide (a ∉ seen) = false from by simp [h]]
      simp only [Bool.false_eq_true, if_false]
      exact ih seen
    · rw [if_neg h, show decide (a ∉ seen) = true from by simp [h]]
      simp only [if_true, List.length_cons]
      rw [ih (a :: seen), dedup_cons_length, List.filter_filter]
      have hf : List.filter (fun x => decide (x ∉ a :: seen)) as =
          List.filter (fun x => decide (x ≠ a) && decide (x ∉ seen)) as := by
        apply List.filter_congr
        intro x _
        by_cases hx : x = a
        · simp [hx]
        · by_cases hs : x ∈ seen <;> simp [hx, hs]
      rw [hf]

/-- The duplicate count reported by `duplicated().sum()` is the number of
rows beyond the distinct ones. -/
theorem duplicatedFlags_count_nil {α : Type} [DecidableEq α] (l : List α) :
    (duplicatedFlags l []).count true = l.length - l.dedup.length := by
  have h1 := duplicatedFlags_count l ([] : List α)
  have h2 := dedupKeyed_id_length l ([] : List α)
  rw [show l.filter (fun x => decide (x ∉ ([] : List α))) = l from
    List.filter_eq_self.mpr (fun x _ => by simp)] at h2
  omega

theorem replCell_isSome (c : Cell) :
    (replCell c).isSome = !(isEmptyCellB c) := by
  unfold replCell isEmptyCellB
  match c with
  | none => rfl
  | some s =>
    by_cases h : s = ""
    · simp [h]
    · simp [h, Option.isSome]

theorem all_not_eq_not_any {α : Type} (p : α → Bool) :
    ∀ l : List α, (l.all fun x => !(p x)) = !(l.any p)
  | [] => rfl
  | x :: xs => by
    rw [List.all_cons, List.any_cons, all_not_eq_not_any p xs, Bool.not_or]

theorem countP_not_add {α : Type} (p : α → Bool) :
    ∀ l : List α, l.countP p + l.countP (fun a => !(p a)) = l.length := by
  intro l
  induction l with
  | nil => rfl
  | cons x xs ih =>
    rw [List.countP_cons, List.countP_cons, List.length_cons]
    cases hx : p x <;> simp [hx] <;> omega

/-- The quantity `len(df) - len(df.replace('', nan).dropna())` counts exactly the rows
with a missing or empty-string cell. -/
theorem emptyRows_count (t : Table) :
    t.rows.length - ((t.replaceEmptyNa).dropna).rows.length =
      t.rows.countP rowHasEmptyB := by
  simp only [Table.replaceEmptyNa, Table.dropna]
  rw [List.filter_map, List.length_map]
  have hpt : ∀ r : Nat × List Cell,
      ((fun r : Nat × List Cell => rowFull r.2) ∘
        (fun r : Nat × List Cell => (r.1, r.2.map replCell))) r =
        !(rowHasEmptyB r) := by
    intro r
    simp only [Function.comp_apply]
    unfold rowFull rowHasEmptyB
    rw [List.all_map]
    have : ((fun c : Cell => c.isSome) ∘ replCell) = fun c => !(isEmptyCellB c) := by
      funext c
      simp only [Function.comp_apply]
      exact replCell_isSome c
    rw [this, all_not_eq_not_any]
  rw [List.filter_congr (fun r _ => hpt r), ← List.countP_eq_length_filter]
  have h1 := countP_not_add rowHasEmptyB t.rows
  omega

theorem foldl_min_le_init :
    ∀ (xs : List Nat) (x : Nat), xs.foldl Nat.min x ≤ x
  | [], x => Nat.le_refl x
  | z :: zs, x => by
    rw [List.foldl_cons]
    exact Nat.le_trans (foldl_min_le_init zs (Nat.min x z)) (Nat.min_le_left x z)

theorem foldl_min_mem :
    ∀ (xs : List Nat) (x : Nat), xs.foldl Nat.min x ∈ x :: xs
  | [], x => List.mem_singleton.mpr rfl
  | y :: ys, x => by
    rw [List.foldl_cons]
    rcases List.mem_cons.mp (foldl_min_mem ys (Nat.min x y)) with h | h
    · rw [h]
      rcases Nat.le_total x y with hxy | hxy
      · have h2 : Nat.min x y = x := Nat.min_eq_left hxy
        rw [h2]
        exact List.mem_cons_self _ _
      · have h2 : Nat.min x y = y := Nat.min_eq_right hxy
        rw [h2]
        exact List.mem_cons_of_mem _ (List.mem_cons_self _ _)
    · exact List.mem_cons_of_mem _ (List.mem_cons_of_mem _ h)

theorem foldl_min_le :
    ∀ (xs : List Nat) (x y : Nat), y ∈ x :: xs → xs.foldl Nat.min x ≤ y
  | [], x, y, h => by
    rcases List.mem_cons.mp h with rfl | h
    · exact Nat.le_refl y
    · exact absurd h (List.not_mem_nil y)
  | z :: zs, x, y, h => by
    rw [List.foldl_cons]
    rcases List.mem_cons.mp h with rfl | h
    · exact Nat.le_trans (foldl_min_le_init zs _) (Nat.min_le_left y z)
    · rcases List.mem_cons.mp h with rfl | h
      · exact Nat.le_trans (foldl_min_le_init zs _) (Nat.min_le_right x y)
      · exact foldl_min_le zs (Nat.min x z) y (List.mem_cons_of_mem _ h)

theorem foldl_max_init_le :
    ∀ (xs : List Nat) (x : Nat), x ≤ xs.foldl Nat.max x
  | [], x => Nat.le_refl x
  | z :: zs, x => by
    rw [List.foldl_cons]
    exact Nat.le_trans (Nat.le_max_left x z) (foldl_max_init_le zs (Nat.max x z))

theorem foldl_max_mem :
    ∀ (xs : List Nat) (x : Nat), xs.foldl Nat.max x ∈ x :: xs
  | [], x => List.mem_singleton.mpr rfl
  | y :: ys, x => by
    rw [List.foldl_cons]
    rcases List.mem_cons.mp (foldl_max_mem ys (Nat.max x y)) with h | h
    · rw [h]
      rcases Nat.le_total x y with hxy | hxy
      · have h2 : Nat.max x y = y := Nat.max_eq_right hxy
        rw [h2]
        exact List.mem_cons_of_mem _ (List.mem_cons_self _ _)
      · have h2 : Nat.max x y = x := Nat.max_eq_left hxy
        rw [h2]
        exact List.mem_cons_self _ _
    · exact List.mem_cons_of_mem _ (List.mem_cons_of_mem _ h)

theorem foldl_le_max :
    ∀ (xs : List Nat) (x y : Nat), y ∈ x :: xs → y ≤ xs.foldl Nat.max x
  | [], x, y, h => by
    rcases List.mem_cons.mp h with rfl | h
    · exact Nat.le_refl y
    · exact absurd h (List.not_mem_nil y)
  | z :: zs, x, y, h => by
    rw [List.foldl_cons]
    rcases List.mem_cons.mp h with rfl | h
    · exact Nat.le_trans (Nat.le_max_left y z) (foldl_max_init_le zs _)
    · rcases List.mem_cons.mp h with rfl | h
      · exact Nat.le_trans (Nat.le_max_right x y) (foldl_max_init_le zs _)
      · exact foldl_le_max zs (Nat.max x z) y (List.mem_cons_of_mem _ h)

/-! ### Claim C8 -/

/-- A raw table whose `question` column has a repeated value in otherwise
distinct rows, and a row with an empty-string answer. -/
def ex8 : Table :=
  { cols := ["question", "best_answer"],
    rows := [(0, [some "a", some "x"]), (1, [some "a", some "y"]),
             (2, [some "b", some ""])] }

/-- C8 counterexample: `lab_8_llm`'s `analyze` reports `dataset_duplicates
= 1` on a table with zero exact-duplicate rows (it compares the `question`
column only), and `dataset_empty_rows = 0` on a table with one
empty-string field (it only counts `NaN`). -/
theorem analyze8_counts_diverge :
    analyze8 ex8 = Except.ok
      { samples := 3, columns := 2, duplicates := 1, emptyRows := 0,
        minLen := 1, maxLen := 1 } ∧
    ex8.rows.length - ((ex8.rows.map Prod.snd).dedup).length = 0 ∧
    ex8.rows.countP rowHasEmptyB = 1 := by
  exact ⟨rfl, by decide, by decide⟩

/-- C8 amended: `lab_7_llm`'s `analyze` deterministically reports the row
count, the column count, the exact-duplicate row count (rows beyond the
distinct ones), the count of rows with a missing or empty-string field, and
the least/greatest character length over the `premise` and `hypothesis`
columns; `lab_8_llm`'s `analyze` counts duplicates by the `question` field
only and does not treat the empty string as missing.  (The embedding is a
pure function of the table, so the input is not mutated.) -/
theorem analyze7_report (t : Table) (r : AnalyzeReport)
    (pc hcol : List Cell) (ps hs : List String)
    (h : analyze7 t = Except.ok r)
    (hp : getColumn t "premise" = Except.ok pc)
    (hps : cellStrings pc = Except.ok ps)
    (hh : getColumn t "hypothesis" = Except.ok hcol)
    (hhs : cellStrings hcol = Except.ok hs) :
    r.samples = t.rows.length ∧
    r.columns = t.cols.length ∧
    r.duplicates = t.rows.length - ((t.rows.map Prod.snd).dedup).length ∧
    r.emptyRows = t.rows.countP rowHasEmptyB ∧
    (r.minLen ∈ (ps ++ hs).map String.length ∧
      ∀ n ∈ (ps ++ hs).map String.length, r.minLen ≤ n) ∧
    (r.maxLen ∈ (ps ++ hs).map String.length ∧
      ∀ n ∈ (ps ++ hs).map String.length, n ≤ r.maxLen) := by
  rcases ps with _ | ⟨p0, ps'⟩
  · exfalso
    have htp : textStats t "premise" = Except.error "ValueError" := by
      simp only [textStats, hp, hps, pyMinLen]
    simp only [analyze7, htp] at h
    exact Except.noConfusion h
  · rcases hs with _ | ⟨h0, hs'⟩
    · exfalso
      have htp : textStats t "premise" =
          Except.ok ((ps'.map String.length).foldl Nat.min p0.length,
                     (ps'.map String.length).foldl Nat.max p0.length) := by
        simp only [textStats, hp, hps, pyMinLen, pyMaxLen]
      have hth : textStats t "hypothesis" = Except.error "ValueError" := by
        simp only [textStats, hh, hhs, pyMinLen]
      simp only [analyze7, htp, hth] at h
      exact Except.noConfusion h
    · have htp : textStats t "premise" =
          Except.ok ((ps'.map String.length).foldl Nat.min p0.length,
                     (ps'.map String.length).foldl Nat.max p0.length) := by
        simp only [textStats, hp, hps, pyMinLen, pyMaxLen]
      have hth : textStats t "hypothesis" =
          Except.ok ((hs'.map String.length).foldl Nat.min h0.length,
                     (hs'.map String.length).foldl Nat.max h0.length) := by
        simp only [textStats, hh, hhs, pyMinLen, pyMaxLen]
      simp only [analyze7, htp, hth] at h
      injection h with h2
      subst h2
      refine ⟨rfl, rfl, ?_, ?_, ⟨?_, ?_⟩, ⟨?_, ?_⟩⟩
      · show (duplicatedFlags (t.rows.map Prod.snd) []).count true = _
        rw [duplicatedFlags_count_nil, List.length_map]
      · exact emptyRows_count t
      · show Nat.min ((ps'.map String.length).foldl Nat.min p0.length)
            ((hs'.map String.length).foldl Nat.min h0.length) ∈
            ((p0 :: ps' ++ h0 :: hs').map String.length)
        simp only [List.map_append, List.map_cons]
        rcases Nat.le_total ((ps'.map String.length).foldl Nat.min p0.length)
            ((hs'.map String.length).foldl Nat.min h0.length) with hle | hle
        · have hm : Nat.min ((ps'.map String.length).foldl Nat.min p0.length)
              ((hs'.map String.length).foldl Nat.min h0.length) =
              (ps'.map String.length).foldl Nat.min p0.length :=
            Nat.min_eq_left hle
          rw [hm]
          exact List.mem_append_left _ (foldl_min_mem _ _)
        · have hm : Nat.min ((ps'.map String.length).foldl Nat.min p0.length)
              ((hs'.map String.length).foldl Nat.min h0.length) =
              (hs'.map String.length).foldl Nat.min h0.length :=
            Nat.min_eq_right hle
          rw [hm]
          exact List.mem_append_right _ (foldl_min_mem _ _)
      · intro n hn
        show Nat.min ((ps'.map String.length).foldl Nat.min p0.length)
            ((hs'.map String.length).foldl Nat.min h0.length) ≤ n
        simp only [List.map_append, List.map_cons] at hn
        rcases List.mem_append.mp hn with hn | hn
        · exact Nat.le_trans (Nat.min_le_left _ _) (foldl_min_le _ _ n hn)
        · exact Nat.le_trans (Nat.min_le_right _ _) (foldl_min_le _ _ n hn)
      · show Nat.max ((ps'.map String.length).foldl Nat.max p0.length)
            ((hs'.map String.length).foldl Nat.max h0.length) ∈
            ((p0 :: ps' ++ h0 :: hs').map String.length)
        simp only [List.map_append, List.map_cons]
        rcases Nat.le_total ((ps'.map String.length).foldl Nat.max p0.length)
            ((hs'.map String.length).foldl Nat.max h0.length) with hle | hle
        · have hm : Nat.max ((ps'.map String.length).foldl Nat.max p0.length)
              ((hs'.map String.length).foldl Nat.max h0.length) =
              (hs'.map String.length).foldl Nat.max h0.length :=
            Nat.max_eq_right hle
          rw [hm]
          exact List.mem_append_right _ (foldl_max_mem _ _)
        · have hm : Nat.max ((ps'.map String.length).foldl Nat.max p0.length)
              ((hs'.map String.length).foldl Nat.max h0.length) =
              (ps'.map String.length).foldl Nat.max p0.length :=
            Nat.max_eq_left hle
          rw [hm]
          exact List.mem_append_left _ (foldl_max_mem _ _)
      · intro n hn
        show n ≤ Nat.max ((ps'.map String.length).foldl Nat.max p0.length)
            ((hs'.map String.length).foldl Nat.max h0.length)
        simp only [List.map_append, List.map_cons] at hn
        rcases List.mem_append.mp hn with hn | hn
        · exact Nat.le_trans (foldl_le_max _ _ n hn) (Nat.le_max_left _ _)
        · exact Nat.le_trans (foldl_le_max _ _ n hn) (Nat.le_max_right _ _)

theorem analyze7_report_witness :
    ({ samples := 4, columns := 3, duplicates := 1, emptyRows := 2,
       minLen := 0, maxLen := 3 } : AnalyzeReport).duplicates =
      exTable7.rows.length - ((exTable7.rows.map Prod.snd).dedup).length :=
  (analyze7_report exTable7
    { samples := 4, columns := 3, duplicates := 1, emptyRows := 2,
      minLen := 0, maxLen := 3 }
    [some "p", some "p", some "pp", some "ppp"]
    [some "h", some "h", some "", some "hh"]
    ["p", "p", "pp", "ppp"] ["h", "h", "", "hh"]
    rfl rfl rfl rfl rfl).2.2.1

end HelloLLM
